import Mathlib

/-!
A shallow embedding of the quaternion value type of this Qt snapshot.

The snapshot contains the test suite
`tests/auto/gui/math3d/qquaternion/tst_qquaternion.cpp` but not the
implementation file of `QQuaternion` itself, so every operation below is
modelled from the specification (spec.md), with the reference computations
embedded in the test file pinning the behaviour where the spec and the tests
speak to the same point.  Single-precision floating-point components are
idealised as exact real numbers; the one place where the spec talks about
bit-level float behaviour (signed zero) uses a dedicated representation-level
model at the end of the definitions section.
-/

/-- Modelled from the spec: the three-component vector type `QVector3D` used
by `QQuaternion` (its source is not in the snapshot); components are
idealised as exact reals. -/
@[ext]
structure QVector3D where
  x : ℝ
  y : ℝ
  z : ℝ

namespace QVector3D

/-- Modelled from the spec: component-wise vector addition. -/
instance : Add QVector3D :=
  ⟨fun a b => ⟨a.x + b.x, a.y + b.y, a.z + b.z⟩⟩

/-- Modelled from the spec: scalar multiple of a vector, component-wise. -/
instance : SMul ℝ QVector3D :=
  ⟨fun c a => ⟨c * a.x, c * a.y, c * a.z⟩⟩

/-- Modelled from the spec: `QVector3D::dotProduct`. -/
def dotProduct (a b : QVector3D) : ℝ :=
  a.x * b.x + a.y * b.y + a.z * b.z

/-- Modelled from the spec: `QVector3D::crossProduct`. -/
def crossProduct (a b : QVector3D) : QVector3D :=
  ⟨a.y * b.z - a.z * b.y, a.z * b.x - a.x * b.z, a.x * b.y - a.y * b.x⟩

/-- Modelled from the spec: `QVector3D::lengthSquared`, the sum of the
squares of the components. -/
def lengthSquared (a : QVector3D) : ℝ :=
  a.x ^ 2 + a.y ^ 2 + a.z ^ 2

/-- Modelled from the spec: `QVector3D::length`, the Euclidean norm. -/
noncomputable def length (a : QVector3D) : ℝ :=
  Real.sqrt a.lengthSquared

/-- Modelled from the spec: `QVector3D::normalized`; a null vector is passed
through unchanged, so no division by zero happens. -/
noncomputable def normalized (a : QVector3D) : QVector3D :=
  if a.lengthSquared = 0 then a else (1 / a.length) • a

end QVector3D

/-- Modelled from the spec: the `QQuaternion` value type, four components
`w + xi + yj + zk`, stored in the fields `wp`, `xp`, `yp`, `zp` (scalar part
first, as in the `QQuaternion(scalar, x, y, z)` constructor); components are
idealised as exact reals. -/
@[ext]
structure QQuaternion where
  wp : ℝ
  xp : ℝ
  yp : ℝ
  zp : ℝ

namespace QQuaternion

/-- Modelled from the spec: `QQuaternion::vector`, the vector part. -/
def vector (q : QQuaternion) : QVector3D :=
  ⟨q.xp, q.yp, q.zp⟩

/-- Modelled from the spec: the constructor from a scalar part and a 3D
vector part, equivalent to the four-value constructor. -/
def fromScalarAndVector (s : ℝ) (v : QVector3D) : QQuaternion :=
  ⟨s, v.x, v.y, v.z⟩

/-- Modelled from the spec: component-wise quaternion addition. -/
instance : Add QQuaternion :=
  ⟨fun a b => ⟨a.wp + b.wp, a.xp + b.xp, a.yp + b.yp, a.zp + b.zp⟩⟩

/-- Modelled from the spec: component-wise negation. -/
instance : Neg QQuaternion :=
  ⟨fun a => ⟨-a.wp, -a.xp, -a.yp, -a.zp⟩⟩

/-- Modelled from the spec: component-wise scaling by a factor. -/
instance : SMul ℝ QQuaternion :=
  ⟨fun c a => ⟨c * a.wp, c * a.xp, c * a.yp, c * a.zp⟩⟩

/-- Modelled from the spec: the Hamilton product: for `q1 = (w1, v1)` and
`q2 = (w2, v2)` the scalar part of the product is `w1*w2 - dot(v1, v2)` and
the vector part is `w1*v2 + w2*v1 + cross(v1, v2)`. -/
def hamiltonProduct (q1 q2 : QQuaternion) : QQuaternion :=
  fromScalarAndVector
    (q1.wp * q2.wp - QVector3D.dotProduct q1.vector q2.vector)
    (q1.wp • q2.vector + q2.wp • q1.vector +
      QVector3D.crossProduct q1.vector q2.vector)

instance : Mul QQuaternion :=
  ⟨hamiltonProduct⟩

/-- Modelled from the spec: `QQuaternion::dotProduct`, the sum of the four
component-wise products. -/
def dotProduct (q1 q2 : QQuaternion) : ℝ :=
  q1.xp * q2.xp + q1.yp * q2.yp + q1.zp * q2.zp + q1.wp * q2.wp

/-- Modelled from the spec: `QQuaternion::lengthSquared`, the sum of the
squares of the four components. -/
def lengthSquared (q : QQuaternion) : ℝ :=
  q.xp ^ 2 + q.yp ^ 2 + q.zp ^ 2 + q.wp ^ 2

/-- Modelled from the spec: `QQuaternion::length`, the Euclidean norm of the
four components. -/
noncomputable def length (q : QQuaternion) : ℝ :=
  Real.sqrt q.lengthSquared

/-- Modelled from the spec: `QQuaternion::isNull`, true exactly when all
four components are zero. -/
def isNull (q : QQuaternion) : Prop :=
  q.wp = 0 ∧ q.xp = 0 ∧ q.yp = 0 ∧ q.zp = 0

/-- Modelled from the spec: `QQuaternion::normalized`; a null source is
passed through unchanged (the division by zero is short-circuited),
otherwise every component is divided by the length. -/
noncomputable def normalized (q : QQuaternion) : QQuaternion :=
  if q.lengthSquared = 0 then q else (1 / q.length) • q

/-- Modelled from the spec: the in-place mutator `QQuaternion::normalize`,
modelled as the function sending the pre-state to the post-state; it has the
same null-case short-circuit as `normalized`. -/
noncomputable def normalize (q : QQuaternion) : QQuaternion :=
  q.normalized

end QQuaternion

/-- Modelled from the spec: `qDegreesToRadians`. -/
noncomputable def degreesToRadians (d : ℝ) : ℝ :=
  d * (Real.pi / 180)

/-- Modelled from the spec: `qRadiansToDegrees`. -/
noncomputable def radiansToDegrees (r : ℝ) : ℝ :=
  r * (180 / Real.pi)

namespace QQuaternion

/-- Modelled from the spec: `QQuaternion::fromAxisAndAngle` (absent from the
snapshot): the axis is normalized first, the result is
`(cos(a), axis * sin(a))` with `a` half the angle in radians, and that
quaternion is itself normalized. -/
noncomputable def fromAxisAndAngle (axis : QVector3D) (angle : ℝ) : QQuaternion :=
  (fromScalarAndVector (Real.cos (degreesToRadians angle / 2))
    (Real.sin (degreesToRadians angle / 2) • axis.normalized)).normalized

/-- Reference construction used by `tst_QQuaternion::fromAxisAndAngle`
(tst_qquaternion.cpp lines 789-800): normalize the axis, take cosine and
sine of half the angle in radians, build the quaternion component by
component and renormalize it. -/
noncomputable def fromAxisAndAngleRef (axis : QVector3D) (angle : ℝ) : QQuaternion :=
  let vec := axis.normalized
  let a := degreesToRadians angle / 2
  let sa := Real.sin a
  let ca := Real.cos a
  (QQuaternion.mk ca (vec.x * sa) (vec.y * sa) (vec.z * sa)).normalized

/-- Modelled from the spec: `QQuaternion::getAxisAndAngle` (absent from the
snapshot), the inverse mapping of `fromAxisAndAngle`: when the vector part
is null any axis fits and `((0,0,0), 0)` is returned; otherwise the axis is
the normalized vector part and the angle in degrees is twice the arccosine
of the scalar part. -/
noncomputable def getAxisAndAngle (q : QQuaternion) : QVector3D × ℝ :=
  if q.vector.lengthSquared = 0 then (⟨0, 0, 0⟩, 0)
  else ((1 / q.vector.length) • q.vector, radiansToDegrees (2 * Real.arccos q.wp))

/-- Modelled from the spec: `QQuaternion::slerp` (absent from the snapshot).
An interpolation parameter at or outside the ends of `[0, 1]` returns the
corresponding endpoint exactly, which is the behaviour the expectations of
`tst_QQuaternion::slerp_data` (rows `first2` and `second2`, at `t = -0.5`
and `t = 1.5`) pin down; inside the open interval the second endpoint is
negated when the dot product is negative (so the shorter arc is taken), and
the spherical sine-ratio factors are used unless the angle between the
quaternions is so small that the algorithm falls back to linear
interpolation factors. -/
noncomputable def slerp (q1 q2 : QQuaternion) (t : ℝ) : QQuaternion :=
  if t ≤ 0 then q1
  else if 1 ≤ t then q2
  else
    let d0 := dotProduct q1 q2
    let q2b := if d0 < 0 then -q2 else q2
    let d := |d0|
    let angle := Real.arccos d
    let spherical := (1 : ℝ) / 10 ^ 7 < 1 - d ∧ (1 : ℝ) / 10 ^ 7 < Real.sin angle
    let f1 := if spherical then Real.sin ((1 - t) * angle) / Real.sin angle else 1 - t
    let f2 := if spherical then Real.sin (t * angle) / Real.sin angle else t
    f1 • q1 + f2 • q2b

/-- Modelled from the spec: `QQuaternion::nlerp` (absent from the snapshot):
`t <= 0` returns the first endpoint exactly and `t >= 1` the second;
otherwise the per-component linear blend is formed, with the second
endpoint negated first when the dot product of the two quaternions is
negative (the angle between them exceeds 180 degrees), and the blend is
renormalized. -/
noncomputable def nlerp (q1 q2 : QQuaternion) (t : ℝ) : QQuaternion :=
  if t ≤ 0 then q1
  else if 1 ≤ t then q2
  else normalized ((1 - t) • q1 + t • (if dotProduct q1 q2 < 0 then -q2 else q2))

end QQuaternion

/-- Modelled from the spec: the 3x3 matrix type `QMatrix3x3` as used for
rotation conversions, with entry `mij` in row `i`, column `j`. -/
@[ext]
structure QMatrix3x3 where
  m00 : ℝ
  m01 : ℝ
  m02 : ℝ
  m10 : ℝ
  m11 : ℝ
  m12 : ℝ
  m20 : ℝ
  m21 : ℝ
  m22 : ℝ

namespace QQuaternion

/-- Modelled from the spec: `QQuaternion::toRotationMatrix`, the standard
quaternion-to-rotation-matrix conversion. -/
def toRotationMatrix (q : QQuaternion) : QMatrix3x3 :=
  ⟨1 - 2 * (q.yp ^ 2 + q.zp ^ 2), 2 * (q.xp * q.yp) - 2 * (q.zp * q.wp),
    2 * (q.xp * q.zp) + 2 * (q.yp * q.wp),
    2 * (q.xp * q.yp) + 2 * (q.zp * q.wp), 1 - 2 * (q.xp ^ 2 + q.zp ^ 2),
    2 * (q.yp * q.zp) - 2 * (q.xp * q.wp),
    2 * (q.xp * q.zp) - 2 * (q.yp * q.wp), 2 * (q.yp * q.zp) + 2 * (q.xp * q.wp),
    1 - 2 * (q.xp ^ 2 + q.yp ^ 2)⟩

/-- Modelled from the spec: `QQuaternion::fromRotationMatrix`, the standard
(Shepperd-style) rotation-matrix-to-quaternion conversion: when the trace is
positive the scalar part is recovered from it, otherwise the dominant
diagonal entry selects which vector component is recovered from the
diagonal, the remaining components coming from off-diagonal sums and
differences. -/
noncomputable def fromRotationMatrix (m : QMatrix3x3) : QQuaternion :=
  if 0 < m.m00 + m.m11 + m.m22 then
    let s := 2 * Real.sqrt (m.m00 + m.m11 + m.m22 + 1)
    ⟨s / 4, (m.m21 - m.m12) / s, (m.m02 - m.m20) / s, (m.m10 - m.m01) / s⟩
  else if m.m00 < m.m11 then
    if m.m11 < m.m22 then
      let s := 2 * Real.sqrt (m.m22 - m.m00 - m.m11 + 1)
      ⟨(m.m10 - m.m01) / s, (m.m02 + m.m20) / s, (m.m12 + m.m21) / s, s / 4⟩
    else
      let s := 2 * Real.sqrt (m.m11 - m.m22 - m.m00 + 1)
      ⟨(m.m02 - m.m20) / s, (m.m01 + m.m10) / s, s / 4, (m.m21 + m.m12) / s⟩
  else if m.m00 < m.m22 then
    let s := 2 * Real.sqrt (m.m22 - m.m00 - m.m11 + 1)
    ⟨(m.m10 - m.m01) / s, (m.m02 + m.m20) / s, (m.m12 + m.m21) / s, s / 4⟩
  else
    let s := 2 * Real.sqrt (m.m00 - m.m11 - m.m22 + 1)
    ⟨(m.m21 - m.m12) / s, s / 4, (m.m10 + m.m01) / s, (m.m20 + m.m02) / s⟩

/-- Modelled from the spec: `QQuaternion::fromEulerAngles` (absent from the
snapshot): pitch, yaw and roll are given in degrees and compose in the
order `yaw * (pitch * roll)`; the definition is the standard closed-form
expansion of that composition in the half-angle sines and cosines (the
euclideanspace.com formula the implementation follows). -/
noncomputable def fromEulerAngles (pitch yaw roll : ℝ) : QQuaternion :=
  let p := degreesToRadians pitch / 2
  let ya := degreesToRadians yaw / 2
  let r := degreesToRadians roll / 2
  let c1 := Real.cos ya
  let s1 := Real.sin ya
  let c2 := Real.cos r
  let s2 := Real.sin r
  let c3 := Real.cos p
  let s3 := Real.sin p
  ⟨c1 * c2 * c3 + s1 * s2 * s3,
    c1 * c2 * s3 + s1 * s2 * c3,
    s1 * c2 * c3 - c1 * s2 * s3,
    c1 * s2 * c3 - s1 * c2 * s3⟩

end QQuaternion

/-- Modelled from the spec: the two-argument arctangent `std::atan2` used to
recover yaw and roll: the angle of the point `(x, y)` in `(-pi, pi]`. -/
noncomputable def atan2 (y x : ℝ) : ℝ :=
  if 0 < x then Real.arctan (y / x)
  else if x < 0 then
    if 0 ≤ y then Real.arctan (y / x) + Real.pi else Real.arctan (y / x) - Real.pi
  else if 0 < y then Real.pi / 2
  else if y < 0 then -(Real.pi / 2)
  else 0

/-- Modelled from the spec: the tolerance used when detecting gimbal lock in
the Euler decomposition; the spec requires a threshold comparison, not an
exact one, so that inputs fractions of a degree away from a lock still take
the lock branch.  Three units in the last place of a single-precision
number at `1.0` are allowed. -/
noncomputable def gimbalLockTolerance : ℝ :=
  3 / 2 ^ 23

namespace QQuaternion

/-- Modelled from the spec: `QQuaternion::toEulerAngles` and the equivalent
`getEulerAngles` (absent from the snapshot), returning
`(pitch, yaw, roll)` in degrees.  The quadratic component products are
divided by the squared length (a no-op for unit quaternions, guarded for
the null quaternion), pitch is the arcsine of `-2*(yz - xw)`, and yaw and
roll come from two-argument arctangents; when that arcsine argument is
within `gimbalLockTolerance` of `1` in magnitude the gimbal-lock branch is
taken: pitch is forced to exactly +-90 degrees, roll to zero, and the whole
remaining rotation is expressed in the yaw term. -/
noncomputable def toEulerAngles (q : QQuaternion) : ℝ × ℝ × ℝ :=
  let n := q.lengthSquared
  let d := if n = 0 then 1 else n
  let xx := q.xp ^ 2 / d
  let xy := q.xp * q.yp / d
  let xz := q.xp * q.zp / d
  let xw := q.xp * q.wp / d
  let yy := q.yp ^ 2 / d
  let yz := q.yp * q.zp / d
  let yw := q.yp * q.wp / d
  let zz := q.zp ^ 2 / d
  let zw := q.zp * q.wp / d
  let sinp := -2 * (yz - xw)
  if |sinp| < 1 - gimbalLockTolerance then
    (radiansToDegrees (Real.arcsin sinp),
      radiansToDegrees (atan2 (2 * (xz + yw)) (1 - 2 * (xx + yy))),
      radiansToDegrees (atan2 (2 * (xy + zw)) (1 - 2 * (xx + zz))))
  else
    ((if 0 ≤ sinp then 90 else -90),
      (if 0 ≤ sinp then 1 else -1) * radiansToDegrees (atan2 (2 * (xy - zw)) (1 - 2 * (yy + zz))),
      0)

/-- Modelled from the spec: `QQuaternion::getEulerAngles`, which reports the
same decomposition as `toEulerAngles` through out-parameters. -/
noncomputable def getEulerAngles (q : QQuaternion) : ℝ × ℝ × ℝ :=
  q.toEulerAngles

end QQuaternion

/-- Modelled from the spec: a single-precision float value as stored in a
quaternion component, reduced to what the spec's signed-zero discussion
needs: the exact numeric value together with the sign bit, so that `-0.0`
is representationally distinct from `0.0` while comparing numerically equal
to it.  Numeric values are idealised as rationals. -/
structure FloatRep where
  val : ℚ
  sign : Bool
deriving DecidableEq

/-- Modelled from the spec: the float literal for a rational value, carrying
the sign of the value. -/
def FloatRep.lit (q : ℚ) : FloatRep :=
  ⟨q, decide (q < 0)⟩

/-- Modelled from the spec: the IEEE negative zero `-0.0`: numeric value
zero, sign bit set. -/
def FloatRep.negZero : FloatRep :=
  ⟨0, true⟩

/-- Modelled from the spec: IEEE numeric equality of float values, which
ignores the sign of a zero. -/
def FloatRep.numEq (a b : FloatRep) : Prop :=
  a.val = b.val

/-- Modelled from the spec: `QQuaternion` at the stored-representation
level (four float components kept verbatim, in constructor order
`(scalar, x, y, z)`), used for the accessor-level signed-zero observations;
the real-component model above cannot represent `-0.0`. -/
structure QQuaternionRep where
  wp : FloatRep
  xp : FloatRep
  yp : FloatRep
  zp : FloatRep
deriving DecidableEq

namespace QQuaternionRep

/-- Modelled from the spec: `QQuaternion::isNull` at the representation
level: true exactly when all four components are (numerically) zero. -/
def isNull (q : QQuaternionRep) : Prop :=
  q.wp.val = 0 ∧ q.xp.val = 0 ∧ q.yp.val = 0 ∧ q.zp.val = 0

instance (q : QQuaternionRep) : Decidable q.isNull :=
  inferInstanceAs (Decidable (q.wp.val = 0 ∧ q.xp.val = 0 ∧ q.yp.val = 0 ∧ q.zp.val = 0))

/-- Modelled from the spec: `QQuaternion::isIdentity` at the representation
level: the scalar is `1` and the three vector components are zero, using
numeric comparison, so a `-0.0` component still counts as zero. -/
def isIdentity (q : QQuaternionRep) : Prop :=
  q.xp.val = 0 ∧ q.yp.val = 0 ∧ q.zp.val = 0 ∧ q.wp.val = 1

instance (q : QQuaternionRep) : Decidable q.isIdentity :=
  inferInstanceAs (Decidable (q.xp.val = 0 ∧ q.yp.val = 0 ∧ q.zp.val = 0 ∧ q.wp.val = 1))

end QQuaternionRep

/- Component-level unfolding lemmas for the operator instances. -/

@[simp]
theorem QVector3D.add_x (a b : QVector3D) : (a + b).x = a.x + b.x := rfl

@[simp]
theorem QVector3D.add_y (a b : QVector3D) : (a + b).y = a.y + b.y := rfl

@[simp]
theorem QVector3D.add_z (a b : QVector3D) : (a + b).z = a.z + b.z := rfl

@[simp]
theorem QVector3D.smul_x (c : ℝ) (a : QVector3D) : (c • a).x = c * a.x := rfl

@[simp]
theorem QVector3D.smul_y (c : ℝ) (a : QVector3D) : (c • a).y = c * a.y := rfl

@[simp]
theorem QVector3D.smul_z (c : ℝ) (a : QVector3D) : (c • a).z = c * a.z := rfl

@[simp]
theorem QQuaternion.add_wp (a b : QQuaternion) : (a + b).wp = a.wp + b.wp := rfl

@[simp]
theorem QQuaternion.add_xp (a b : QQuaternion) : (a + b).xp = a.xp + b.xp := rfl

@[simp]
theorem QQuaternion.add_yp (a b : QQuaternion) : (a + b).yp = a.yp + b.yp := rfl

@[simp]
theorem QQuaternion.add_zp (a b : QQuaternion) : (a + b).zp = a.zp + b.zp := rfl

@[simp]
theorem QQuaternion.neg_wp (a : QQuaternion) : (-a).wp = -a.wp := rfl

@[simp]
theorem QQuaternion.neg_xp (a : QQuaternion) : (-a).xp = -a.xp := rfl

@[simp]
theorem QQuaternion.neg_yp (a : QQuaternion) : (-a).yp = -a.yp := rfl

@[simp]
theorem QQuaternion.neg_zp (a : QQuaternion) : (-a).zp = -a.zp := rfl

@[simp]
theorem QQuaternion.smul_wp (c : ℝ) (a : QQuaternion) : (c • a).wp = c * a.wp := rfl

@[simp]
theorem QQuaternion.smul_xp (c : ℝ) (a : QQuaternion) : (c • a).xp = c * a.xp := rfl

@[simp]
theorem QQuaternion.smul_yp (c : ℝ) (a : QQuaternion) : (c • a).yp = c * a.yp := rfl

@[simp]
theorem QQuaternion.smul_zp (c : ℝ) (a : QQuaternion) : (c • a).zp = c * a.zp := rfl

theorem QQuaternion.mul_def (q1 q2 : QQuaternion) :
    q1 * q2 = QQuaternion.hamiltonProduct q1 q2 := rfl

/-- A null quaternion has squared length zero and conversely. -/
theorem QQuaternion.isNull_iff_lengthSquared_eq_zero (q : QQuaternion) :
    q.isNull ↔ q.lengthSquared = 0 := by
  unfold QQuaternion.isNull QQuaternion.lengthSquared
  constructor
  · rintro ⟨h1, h2, h3, h4⟩
    rw [h1, h2, h3, h4]
    ring
  · intro h
    refine ⟨?_, ?_, ?_, ?_⟩ <;> nlinarith [sq_nonneg q.wp, sq_nonneg q.xp, sq_nonneg q.yp, sq_nonneg q.zp]

/-- The squared length of any quaternion is nonnegative. -/
theorem QQuaternion.lengthSquared_nonneg (q : QQuaternion) :
    0 ≤ q.lengthSquared := by
  unfold QQuaternion.lengthSquared
  positivity

/-- Scaling a quaternion scales its squared length by the square of the
factor. -/
theorem QQuaternion.lengthSquared_smul (c : ℝ) (q : QQuaternion) :
    (c • q).lengthSquared = c ^ 2 * q.lengthSquared := by
  unfold QQuaternion.lengthSquared
  simp only [QQuaternion.smul_wp, QQuaternion.smul_xp, QQuaternion.smul_yp, QQuaternion.smul_zp]
  ring

/-- C1: for all quaternions `q1 = (w1, v1)` and `q2 = (w2, v2)`, the product
`q1 * q2` has scalar part `w1*w2 - dot(v1, v2)` and vector part
`w1*v2 + w2*v1 + cross(v1, v2)`, here spelled out component-wise and holding
exactly for every pair of component values, and the product is
non-commutative (witnessed by the unit quaternions `i` and `j`). -/
theorem C1_hamilton_product :
    (∀ q1 q2 : QQuaternion,
      (q1 * q2).wp = q1.wp * q2.wp - (q1.xp * q2.xp + q1.yp * q2.yp + q1.zp * q2.zp) ∧
      (q1 * q2).xp = q1.wp * q2.xp + q2.wp * q1.xp + (q1.yp * q2.zp - q1.zp * q2.yp) ∧
      (q1 * q2).yp = q1.wp * q2.yp + q2.wp * q1.yp + (q1.zp * q2.xp - q1.xp * q2.zp) ∧
      (q1 * q2).zp = q1.wp * q2.zp + q2.wp * q1.zp + (q1.xp * q2.yp - q1.yp * q2.xp)) ∧
    (⟨0, 1, 0, 0⟩ : QQuaternion) * ⟨0, 0, 1, 0⟩ ≠ (⟨0, 0, 1, 0⟩ : QQuaternion) * ⟨0, 1, 0, 0⟩ := by
  constructor
  · intro q1 q2
    refine ⟨?_, ?_, ?_, ?_⟩ <;>
      simp [QQuaternion.mul_def, QQuaternion.hamiltonProduct, QQuaternion.fromScalarAndVector,
        QQuaternion.vector, QVector3D.dotProduct, QVector3D.crossProduct]
  · intro h
    have h3 := congrArg QQuaternion.zp h
    simp [QQuaternion.mul_def, QQuaternion.hamiltonProduct, QQuaternion.fromScalarAndVector,
      QQuaternion.vector, QVector3D.dotProduct, QVector3D.crossProduct] at h3
    norm_num at h3

/-- C10: the static `dotProduct` is commutative for every pair of
quaternions, and it equals the sum of the four component-wise products, as
on the test's concrete pair `(4,1,2,3)` and `(7,4,5,6)` whose dot product
is `60`. -/
theorem C10_dotProduct_commutative :
    (∀ q1 q2 : QQuaternion, QQuaternion.dotProduct q1 q2 = QQuaternion.dotProduct q2 q1) ∧
    (∀ q1 q2 : QQuaternion, QQuaternion.dotProduct q1 q2 =
      q1.xp * q2.xp + q1.yp * q2.yp + q1.zp * q2.zp + q1.wp * q2.wp) ∧
    QQuaternion.dotProduct ⟨4, 1, 2, 3⟩ ⟨7, 4, 5, 6⟩ = 60 := by
  refine ⟨fun q1 q2 => by unfold QQuaternion.dotProduct; ring,
    fun q1 q2 => rfl, by norm_num [QQuaternion.dotProduct]⟩

/-- C4: a null quaternion is left null by both `normalized` and the in-place
`normalize` (no division by zero occurs), and a non-null quaternion is sent
to a quaternion of length exactly `1` whose components are the original
components divided by the length. -/
theorem C4_normalized_null_safe (q : QQuaternion) :
    (q.isNull → q.normalized = q ∧ q.normalized.isNull ∧ q.normalize = q) ∧
    (¬q.isNull →
      q.normalized.length = 1 ∧
      q.normalized.wp = q.wp / q.length ∧ q.normalized.xp = q.xp / q.length ∧
      q.normalized.yp = q.yp / q.length ∧ q.normalized.zp = q.zp / q.length) := by
  constructor
  · intro h
    have hz : q.lengthSquared = 0 := (QQuaternion.isNull_iff_lengthSquared_eq_zero q).1 h
    have hn : q.normalized = q := by
      unfold QQuaternion.normalized
      rw [if_pos hz]
    exact ⟨hn, by rw [hn]; exact h, hn⟩
  · intro h
    have hz : q.lengthSquared ≠ 0 := fun hc =>
      h ((QQuaternion.isNull_iff_lengthSquared_eq_zero q).2 hc)
    have hpos : 0 < q.lengthSquared :=
      lt_of_le_of_ne (QQuaternion.lengthSquared_nonneg q) (Ne.symm hz)
    have hLpos : 0 < q.length := Real.sqrt_pos.2 hpos
    have hLsq : q.length ^ 2 = q.lengthSquared :=
      Real.sq_sqrt (QQuaternion.lengthSquared_nonneg q)
    have hn : q.normalized = (1 / q.length) • q := by
      unfold QQuaternion.normalized
      rw [if_neg hz]
    have hL0 : q.length ≠ 0 := ne_of_gt hLpos
    have hunit : ((1 / q.length) • q).lengthSquared = 1 := by
      rw [QQuaternion.lengthSquared_smul, ← hLsq]
      field_simp
    have hlen : q.normalized.length = 1 := by
      rw [hn]
      show Real.sqrt (((1 / q.length) • q).lengthSquared) = 1
      rw [hunit, Real.sqrt_one]
    refine ⟨hlen, ?_, ?_, ?_, ?_⟩ <;> rw [hn] <;> simp <;> ring

/-- C4 witness: at the concrete null quaternion the value passes through
unchanged, and at the concrete non-null quaternion `(5,0,0,0)` the
normalized result has length one. -/
theorem C4_normalized_null_safe_witness :
    (⟨0, 0, 0, 0⟩ : QQuaternion).normalized = ⟨0, 0, 0, 0⟩ ∧
    (⟨5, 0, 0, 0⟩ : QQuaternion).normalized.length = 1 :=
  ⟨((C4_normalized_null_safe ⟨0, 0, 0, 0⟩).1 (by norm_num [QQuaternion.isNull])).1,
    ((C4_normalized_null_safe ⟨5, 0, 0, 0⟩).2 (by norm_num [QQuaternion.isNull])).1⟩

/-- C5: `isNull` holds exactly when all four components are zero and
`isIdentity` exactly when the scalar is one and `x`, `y`, `z` are zero; a
negative-zero component still counts as zero for the identity check (so
`QQuaternion(1, -0.0, -0.0, -0.0)` is the identity), while the component
accessors preserve the stored `-0.0`, which is representationally distinct
from `0.0` though numerically equal to it. -/
theorem C5_isNull_isIdentity_signed_zero :
    (∀ q : QQuaternionRep, q.isNull ↔
      (q.wp.val = 0 ∧ q.xp.val = 0 ∧ q.yp.val = 0 ∧ q.zp.val = 0)) ∧
    (∀ q : QQuaternionRep, q.isIdentity ↔
      (q.wp.val = 1 ∧ q.xp.val = 0 ∧ q.yp.val = 0 ∧ q.zp.val = 0)) ∧
    (QQuaternionRep.mk (FloatRep.lit 1) FloatRep.negZero FloatRep.negZero
      FloatRep.negZero).isIdentity ∧
    (QQuaternionRep.mk (FloatRep.lit 1) FloatRep.negZero FloatRep.negZero
      FloatRep.negZero).xp = FloatRep.negZero ∧
    FloatRep.negZero ≠ FloatRep.lit 0 ∧
    FloatRep.numEq FloatRep.negZero (FloatRep.lit 0) := by
  refine ⟨fun q => Iff.rfl, fun q => ?_, by decide, rfl, by decide, rfl⟩
  unfold QQuaternionRep.isIdentity
  tauto

/-- C2 (amended): `slerp` returns the first endpoint exactly at `t = 0` and
the second exactly at `t = 1`; a parameter outside `[0, 1]` is clamped, so
every `t <= 0` yields the first endpoint and every `t >= 1` the second, for
all pairs of input quaternions, whether or not their directions coincide. -/
theorem C2_slerp_clamps (q1 q2 : QQuaternion) (t : ℝ) :
    (t ≤ 0 → QQuaternion.slerp q1 q2 t = q1) ∧
    (1 ≤ t → QQuaternion.slerp q1 q2 t = q2) := by
  constructor
  · intro h
    unfold QQuaternion.slerp
    rw [if_pos h]
  · intro h
    have h0 : ¬t ≤ 0 := by linarith
    unfold QQuaternion.slerp
    rw [if_neg h0, if_pos h]

/-- C2 witness: concrete endpoint returns at `t = 0` and at the
out-of-range `t = 3/2`. -/
theorem C2_slerp_clamps_witness :
    QQuaternion.slerp ⟨2, 3, 4, 5⟩ ⟨6, 7, 8, 9⟩ 0 = ⟨2, 3, 4, 5⟩ ∧
    QQuaternion.slerp ⟨2, 3, 4, 5⟩ ⟨6, 7, 8, 9⟩ (3 / 2) = ⟨6, 7, 8, 9⟩ :=
  ⟨(C2_slerp_clamps ⟨2, 3, 4, 5⟩ ⟨6, 7, 8, 9⟩ 0).1 le_rfl,
    (C2_slerp_clamps ⟨2, 3, 4, 5⟩ ⟨6, 7, 8, 9⟩ (3 / 2)).2 (by norm_num)⟩

/-- C2 counterexample: the identity quaternion and the unit `i` quaternion
do not coincide in direction (the second is no scalar multiple of the
first), yet `slerp` still collapses to the endpoints at `t = -0.5` and
`t = 1.5`: the parameter is clamped, not extrapolated, refuting the claim
that the collapse happens only for inputs of coinciding direction. -/
theorem C2_slerp_counterexample :
    QQuaternion.slerp ⟨1, 0, 0, 0⟩ ⟨0, 1, 0, 0⟩ (-(1 / 2)) = ⟨1, 0, 0, 0⟩ ∧
    QQuaternion.slerp ⟨1, 0, 0, 0⟩ ⟨0, 1, 0, 0⟩ (3 / 2) = ⟨0, 1, 0, 0⟩ ∧
    ∀ c : ℝ, (⟨0, 1, 0, 0⟩ : QQuaternion) ≠ c • (⟨1, 0, 0, 0⟩ : QQuaternion) := by
  refine ⟨?_, ?_, ?_⟩
  · unfold QQuaternion.slerp
    rw [if_pos (by norm_num)]
  · unfold QQuaternion.slerp
    rw [if_neg (by norm_num), if_pos (by norm_num)]
  · intro c h
    have hx := congrArg QQuaternion.xp h
    simp at hx

/-- The squared length of any vector is nonnegative. -/
theorem QVector3D.vec_lengthSquared_nonneg (v : QVector3D) : 0 ≤ v.lengthSquared := by
  unfold QVector3D.lengthSquared
  positivity

/-- Scaling a vector scales its squared length by the square of the
factor. -/
theorem QVector3D.vec_lengthSquared_smul (c : ℝ) (v : QVector3D) :
    (c • v).lengthSquared = c ^ 2 * v.lengthSquared := by
  unfold QVector3D.lengthSquared
  simp only [QVector3D.smul_x, QVector3D.smul_y, QVector3D.smul_z]
  ring

/-- Normalizing a non-null vector produces a unit vector. -/
theorem QVector3D.vec_lengthSquared_normalized (v : QVector3D) (hv : v.lengthSquared ≠ 0) :
    v.normalized.lengthSquared = 1 := by
  have hpos : 0 < v.lengthSquared :=
    lt_of_le_of_ne (QVector3D.vec_lengthSquared_nonneg v) (Ne.symm hv)
  unfold QVector3D.normalized
  rw [if_neg hv, QVector3D.vec_lengthSquared_smul]
  unfold QVector3D.length
  rw [div_pow, one_pow, Real.sq_sqrt (QVector3D.vec_lengthSquared_nonneg v)]
  field_simp

/-- The squared length of a quaternion built from a scalar part and a
vector part. -/
theorem QQuaternion.lengthSquared_fromScalarAndVector (s : ℝ) (v : QVector3D) :
    (QQuaternion.fromScalarAndVector s v).lengthSquared = v.lengthSquared + s ^ 2 := by
  unfold QQuaternion.lengthSquared QQuaternion.fromScalarAndVector QVector3D.lengthSquared
  ring

/-- Normalizing a quaternion of unit squared length is the identity. -/
theorem QQuaternion.normalized_of_unit (q : QQuaternion) (h : q.lengthSquared = 1) :
    q.normalized = q := by
  unfold QQuaternion.normalized
  rw [if_neg (by rw [h]; norm_num)]
  unfold QQuaternion.length
  rw [h, Real.sqrt_one]
  ext <;> simp

/-- With a non-null axis, `fromAxisAndAngle` is exactly the half-angle
cosine/sine construction on the normalized axis: the final renormalization
is the identity because that construction is already a unit quaternion. -/
theorem QQuaternion.fromAxisAndAngle_eq (v : QVector3D) (hv : v.lengthSquared ≠ 0) (a : ℝ) :
    QQuaternion.fromAxisAndAngle v a =
      QQuaternion.fromScalarAndVector (Real.cos (degreesToRadians a / 2))
        (Real.sin (degreesToRadians a / 2) • v.normalized) := by
  unfold QQuaternion.fromAxisAndAngle
  apply QQuaternion.normalized_of_unit
  rw [QQuaternion.lengthSquared_fromScalarAndVector, QVector3D.vec_lengthSquared_smul,
    QVector3D.vec_lengthSquared_normalized v hv, mul_one]
  exact Real.sin_sq_add_cos_sq _

/-- A quaternion produced by `fromAxisAndAngle` from a non-null axis is a
unit quaternion. -/
theorem QQuaternion.lengthSquared_fromAxisAndAngle (v : QVector3D)
    (hv : v.lengthSquared ≠ 0) (a : ℝ) :
    (QQuaternion.fromAxisAndAngle v a).lengthSquared = 1 := by
  rw [QQuaternion.fromAxisAndAngle_eq v hv a, QQuaternion.lengthSquared_fromScalarAndVector,
    QVector3D.vec_lengthSquared_smul, QVector3D.vec_lengthSquared_normalized v hv, mul_one]
  exact Real.sin_sq_add_cos_sq _

/-- The vector part of a quaternion built from scalar and vector parts. -/
theorem QQuaternion.vector_fromScalarAndVector (s : ℝ) (v : QVector3D) :
    (QQuaternion.fromScalarAndVector s v).vector = v := by
  unfold QQuaternion.vector QQuaternion.fromScalarAndVector
  ext <;> rfl

/-- Half the angle in radians of a degree angle in `(0, 360)` lies in
`(0, pi)`. -/
theorem half_angle_mem (a : ℝ) (ha0 : 0 < a) (ha1 : a < 360) :
    0 < degreesToRadians a / 2 ∧ degreesToRadians a / 2 < Real.pi := by
  unfold degreesToRadians
  constructor
  · positivity
  · nlinarith [Real.pi_pos]

/-- C6: `fromAxisAndAngle` coincides with the reference construction of the
test (half-angle cosine and sine on the normalized axis, then
renormalization), and for every non-null axis and angle in the tested range
`(0, 360)`, `getAxisAndAngle` recovers the normalized axis and the original
angle in degrees exactly (the model has no floating error). -/
theorem C6_axis_angle_roundtrip (v : QVector3D) (a : ℝ) :
    QQuaternion.fromAxisAndAngle v a = QQuaternion.fromAxisAndAngleRef v a ∧
    (v.lengthSquared ≠ 0 → 0 < a → a < 360 →
      QQuaternion.getAxisAndAngle (QQuaternion.fromAxisAndAngle v a) = (v.normalized, a)) := by
  constructor
  · unfold QQuaternion.fromAxisAndAngle QQuaternion.fromAxisAndAngleRef
    congr 1
    unfold QQuaternion.fromScalarAndVector
    ext <;> simp <;> ring
  · intro hv ha0 ha1
    obtain ⟨hh0, hh1⟩ := half_angle_mem a ha0 ha1
    have hsin : 0 < Real.sin (degreesToRadians a / 2) :=
      Real.sin_pos_of_pos_of_lt_pi hh0 hh1
    rw [QQuaternion.fromAxisAndAngle_eq v hv a]
    unfold QQuaternion.getAxisAndAngle
    rw [QQuaternion.vector_fromScalarAndVector]
    have hlsq : (Real.sin (degreesToRadians a / 2) • v.normalized).lengthSquared =
        Real.sin (degreesToRadians a / 2) ^ 2 := by
      rw [QVector3D.vec_lengthSquared_smul, QVector3D.vec_lengthSquared_normalized v hv, mul_one]
    have hne : (Real.sin (degreesToRadians a / 2) • v.normalized).lengthSquared ≠ 0 := by
      rw [hlsq]
      positivity
    rw [if_neg hne]
    have hlen : (Real.sin (degreesToRadians a / 2) • v.normalized).length =
        Real.sin (degreesToRadians a / 2) := by
      unfold QVector3D.length
      rw [hlsq, Real.sqrt_sq hsin.le]
    rw [hlen]
    have haxis : (1 / Real.sin (degreesToRadians a / 2)) •
        (Real.sin (degreesToRadians a / 2) • v.normalized) = v.normalized := by
      ext <;> simp <;> field_simp
    have hangle : radiansToDegrees (2 * Real.arccos
        (QQuaternion.fromScalarAndVector (Real.cos (degreesToRadians a / 2))
          (Real.sin (degreesToRadians a / 2) • v.normalized)).wp) = a := by
      have hwp : (QQuaternion.fromScalarAndVector (Real.cos (degreesToRadians a / 2))
          (Real.sin (degreesToRadians a / 2) • v.normalized)).wp =
          Real.cos (degreesToRadians a / 2) := rfl
      rw [hwp, Real.arccos_cos hh0.le hh1.le]
      unfold radiansToDegrees degreesToRadians
      field_simp
      ring
    rw [haxis, hangle]

/-- C6 witness: the axis `(1,0,0)` at `90` degrees round-trips through
`fromAxisAndAngle` and `getAxisAndAngle`. -/
theorem C6_axis_angle_roundtrip_witness :
    QQuaternion.getAxisAndAngle (QQuaternion.fromAxisAndAngle ⟨1, 0, 0⟩ 90) =
      ((⟨1, 0, 0⟩ : QVector3D), 90) := by
  have h := (C6_axis_angle_roundtrip ⟨1, 0, 0⟩ 90).2
    (by norm_num [QVector3D.lengthSquared]) (by norm_num) (by norm_num)
  rw [h]
  have hn : (⟨1, 0, 0⟩ : QVector3D).normalized = ⟨1, 0, 0⟩ := by
    have h1 : (⟨1, 0, 0⟩ : QVector3D).lengthSquared = 1 := by
      norm_num [QVector3D.lengthSquared]
    unfold QVector3D.normalized
    rw [if_neg (by rw [h1]; norm_num)]
    unfold QVector3D.length
    rw [h1, Real.sqrt_one]
    ext <;> simp
  rw [hn]

/-- The dot product of two axis-angle quaternions on the same (non-null)
axis is the cosine of half the angle difference in radians. -/
theorem QQuaternion.dot_fromAxisAndAngle_same_axis (v : QVector3D)
    (hv : v.lengthSquared ≠ 0) (a1 a2 : ℝ) :
    QQuaternion.dotProduct (QQuaternion.fromAxisAndAngle v a1)
        (QQuaternion.fromAxisAndAngle v a2) =
      Real.cos (degreesToRadians a1 / 2 - degreesToRadians a2 / 2) := by
  rw [QQuaternion.fromAxisAndAngle_eq v hv a1, QQuaternion.fromAxisAndAngle_eq v hv a2]
  have hu : v.normalized.lengthSquared = 1 := QVector3D.vec_lengthSquared_normalized v hv
  unfold QVector3D.lengthSquared at hu
  unfold QQuaternion.dotProduct QQuaternion.fromScalarAndVector
  simp only [QVector3D.smul_x, QVector3D.smul_y, QVector3D.smul_z]
  rw [Real.cos_sub]
  linear_combination (Real.sin (degreesToRadians a1 / 2) *
    Real.sin (degreesToRadians a2 / 2)) * hu

/-- For an angle difference of at most 360 degrees, the cosine of half the
difference (in radians) is negative exactly when the difference exceeds 180
degrees. -/
theorem cos_half_diff_neg_iff (del : ℝ) (h : |del| ≤ 360) :
    Real.cos (degreesToRadians del / 2) < 0 ↔ 180 < |del| := by
  have hD : degreesToRadians del / 2 = del * (Real.pi / 360) := by
    unfold degreesToRadians
    ring
  have habs : |del * (Real.pi / 360)| = |del| * (Real.pi / 360) := by
    rw [abs_mul, abs_of_pos (show (0 : ℝ) < Real.pi / 360 by positivity)]
  rw [hD]
  constructor
  · intro hneg
    by_contra hle
    push_neg at hle
    have hnn : 0 ≤ Real.cos (del * (Real.pi / 360)) := by
      apply Real.cos_nonneg_of_mem_Icc
      have hb : |del| * (Real.pi / 360) ≤ Real.pi / 2 := by nlinarith [Real.pi_pos]
      constructor
      · nlinarith [neg_abs_le (del * (Real.pi / 360)), habs]
      · nlinarith [le_abs_self (del * (Real.pi / 360)), habs]
    linarith
  · intro hgt
    have h1 : Real.pi / 2 < |del| * (Real.pi / 360) := by nlinarith [Real.pi_pos]
    have h2 : |del| * (Real.pi / 360) < Real.pi + Real.pi / 2 := by nlinarith [Real.pi_pos]
    have hc : Real.cos |del * (Real.pi / 360)| < 0 := by
      rw [habs]
      exact Real.cos_neg_of_pi_div_two_lt_of_lt h1 h2
    rwa [Real.cos_abs] at hc

/-- C3: `nlerp` returns the first endpoint exactly for `t <= 0` and the
second exactly for `t >= 1`; for `t` strictly inside `(0, 1)` it is the
per-component linear blend `(1-t)*q1 + t*q2`, with the second endpoint
negated first exactly when the angle between the two quaternions exceeds
180 degrees (stated on same-axis inputs as the angle difference, as the
test reference computation does), followed by renormalization. -/
theorem C3_nlerp_blend (v : QVector3D) (a1 a2 t : ℝ) (hv : v.lengthSquared ≠ 0)
    (hd : |a1 - a2| ≤ 360) :
    (t ≤ 0 → QQuaternion.nlerp (QQuaternion.fromAxisAndAngle v a1)
        (QQuaternion.fromAxisAndAngle v a2) t = QQuaternion.fromAxisAndAngle v a1) ∧
    (1 ≤ t → QQuaternion.nlerp (QQuaternion.fromAxisAndAngle v a1)
        (QQuaternion.fromAxisAndAngle v a2) t = QQuaternion.fromAxisAndAngle v a2) ∧
    (0 < t → t < 1 →
      QQuaternion.nlerp (QQuaternion.fromAxisAndAngle v a1)
          (QQuaternion.fromAxisAndAngle v a2) t =
        QQuaternion.normalized ((1 - t) • QQuaternion.fromAxisAndAngle v a1 +
          t • (if 180 < |a1 - a2| then -QQuaternion.fromAxisAndAngle v a2
            else QQuaternion.fromAxisAndAngle v a2))) := by
  refine ⟨fun h => ?_, fun h => ?_, fun h0 h1 => ?_⟩
  · unfold QQuaternion.nlerp
    rw [if_pos h]
  · unfold QQuaternion.nlerp
    rw [if_neg (by linarith), if_pos h]
  · unfold QQuaternion.nlerp
    rw [if_neg (by linarith), if_neg (by linarith)]
    have hiff : (QQuaternion.dotProduct (QQuaternion.fromAxisAndAngle v a1)
        (QQuaternion.fromAxisAndAngle v a2) < 0) ↔ (180 < |a1 - a2|) := by
      rw [QQuaternion.dot_fromAxisAndAngle_same_axis v hv a1 a2]
      have hdiff : degreesToRadians a1 / 2 - degreesToRadians a2 / 2 =
          degreesToRadians (a1 - a2) / 2 := by
        unfold degreesToRadians
        ring
      rw [hdiff]
      exact cos_half_diff_neg_iff (a1 - a2) hd
    rw [if_congr hiff rfl rfl]

/-- C3 witness: the test's axis `(1, 2, -3)` at angles `90` and `180`
degrees, blended at `t = 1/2`: the angle difference does not exceed 180
degrees, so no sign flip happens and the result is the renormalized
per-component blend. -/
theorem C3_nlerp_blend_witness :
    QQuaternion.nlerp (QQuaternion.fromAxisAndAngle ⟨1, 2, -3⟩ 90)
        (QQuaternion.fromAxisAndAngle ⟨1, 2, -3⟩ 180) (1 / 2) =
      QQuaternion.normalized
        (((1 : ℝ) - 1 / 2) • QQuaternion.fromAxisAndAngle ⟨1, 2, -3⟩ 90 +
          (1 / 2 : ℝ) • QQuaternion.fromAxisAndAngle ⟨1, 2, -3⟩ 180) := by
  have h := (C3_nlerp_blend ⟨1, 2, -3⟩ 90 180 (1 / 2)
    (by norm_num [QVector3D.lengthSquared])
    (by rw [abs_le]; constructor <;> norm_num)).2.2 (by norm_num) (by norm_num)
  rwa [if_neg (by rw [not_lt, abs_le]; constructor <;> norm_num)] at h

/-- Round trip through the rotation-matrix conversions: a unit quaternion is
reproduced by `fromRotationMatrix` after `toRotationMatrix`, up to the sign
ambiguity of the quaternion double cover. -/
theorem QQuaternion.fromRotationMatrix_toRotationMatrix (q : QQuaternion)
    (h : q.lengthSquared = 1) :
    QQuaternion.fromRotationMatrix (QQuaternion.toRotationMatrix q) = q ∨
    QQuaternion.fromRotationMatrix (QQuaternion.toRotationMatrix q) = -q := by
  rcases q with ⟨w, x, y, z⟩
  unfold QQuaternion.lengthSquared at h
  dsimp only at h
  unfold QQuaternion.fromRotationMatrix QQuaternion.toRotationMatrix
  dsimp only
  split_ifs with h1 h2 h3 h4
  · -- positive trace: the scalar component dominates
    have hs : Real.sqrt (1 - 2 * (y ^ 2 + z ^ 2) + (1 - 2 * (x ^ 2 + z ^ 2)) +
        (1 - 2 * (x ^ 2 + y ^ 2)) + 1) = 2 * |w| := by
      rw [show 1 - 2 * (y ^ 2 + z ^ 2) + (1 - 2 * (x ^ 2 + z ^ 2)) +
          (1 - 2 * (x ^ 2 + y ^ 2)) + 1 = (2 * w) ^ 2 from by linear_combination (-4) * h,
        Real.sqrt_sq_eq_abs, abs_mul]
      norm_num
    rw [hs]
    have hw2 : 1 < 4 * w ^ 2 := by nlinarith
    have hww : w ≠ 0 := by
      intro h0
      rw [h0] at hw2
      norm_num at hw2
    rcases hww.lt_or_lt with hneg | hpos
    · right
      rw [abs_of_neg hneg]
      ext <;> simp only [QQuaternion.neg_wp, QQuaternion.neg_xp, QQuaternion.neg_yp,
        QQuaternion.neg_zp] <;> field_simp <;> ring
    · left
      rw [abs_of_pos hpos]
      ext <;> field_simp <;> ring
  · -- the z component dominates, selected through the second diagonal test
    push_neg at h1
    have hs : Real.sqrt (1 - 2 * (x ^ 2 + y ^ 2) - (1 - 2 * (y ^ 2 + z ^ 2)) -
        (1 - 2 * (x ^ 2 + z ^ 2)) + 1) = 2 * |z| := by
      rw [show 1 - 2 * (x ^ 2 + y ^ 2) - (1 - 2 * (y ^ 2 + z ^ 2)) -
          (1 - 2 * (x ^ 2 + z ^ 2)) + 1 = (2 * z) ^ 2 from by ring,
        Real.sqrt_sq_eq_abs, abs_mul]
      norm_num
    rw [hs]
    have hz2 : 1 < 4 * z ^ 2 := by nlinarith
    have hzz : z ≠ 0 := by
      intro h0
      rw [h0] at hz2
      norm_num at hz2
    rcases hzz.lt_or_lt with hneg | hpos
    · right
      rw [abs_of_neg hneg]
      ext <;> simp only [QQuaternion.neg_wp, QQuaternion.neg_xp, QQuaternion.neg_yp,
        QQuaternion.neg_zp] <;> field_simp <;> ring
    · left
      rw [abs_of_pos hpos]
      ext <;> field_simp <;> ring
  · -- the y component dominates
    push_neg at h1 h3
    have hs : Real.sqrt (1 - 2 * (x ^ 2 + z ^ 2) - (1 - 2 * (x ^ 2 + y ^ 2)) -
        (1 - 2 * (y ^ 2 + z ^ 2)) + 1) = 2 * |y| := by
      rw [show 1 - 2 * (x ^ 2 + z ^ 2) - (1 - 2 * (x ^ 2 + y ^ 2)) -
          (1 - 2 * (y ^ 2 + z ^ 2)) + 1 = (2 * y) ^ 2 from by ring,
        Real.sqrt_sq_eq_abs, abs_mul]
      norm_num
    rw [hs]
    have hy2 : 1 < 4 * y ^ 2 := by nlinarith
    have hyy : y ≠ 0 := by
      intro h0
      rw [h0] at hy2
      norm_num at hy2
    rcases hyy.lt_or_lt with hneg | hpos
    · right
      rw [abs_of_neg hneg]
      ext <;> simp only [QQuaternion.neg_wp, QQuaternion.neg_xp, QQuaternion.neg_yp,
        QQuaternion.neg_zp] <;> field_simp <;> ring
    · left
      rw [abs_of_pos hpos]
      ext <;> field_simp <;> ring
  · -- the z component dominates, selected through the third diagonal test
    push_neg at h1 h2
    have hs : Real.sqrt (1 - 2 * (x ^ 2 + y ^ 2) - (1 - 2 * (y ^ 2 + z ^ 2)) -
        (1 - 2 * (x ^ 2 + z ^ 2)) + 1) = 2 * |z| := by
      rw [show 1 - 2 * (x ^ 2 + y ^ 2) - (1 - 2 * (y ^ 2 + z ^ 2)) -
          (1 - 2 * (x ^ 2 + z ^ 2)) + 1 = (2 * z) ^ 2 from by ring,
        Real.sqrt_sq_eq_abs, abs_mul]
      norm_num
    rw [hs]
    have hz2 : 1 < 4 * z ^ 2 := by nlinarith
    have hzz : z ≠ 0 := by
      intro h0
      rw [h0] at hz2
      norm_num at hz2
    rcases hzz.lt_or_lt with hneg | hpos
    · right
      rw [abs_of_neg hneg]
      ext <;> simp only [QQuaternion.neg_wp, QQuaternion.neg_xp, QQuaternion.neg_yp,
        QQuaternion.neg_zp] <;> field_simp <;> ring
    · left
      rw [abs_of_pos hpos]
      ext <;> field_simp <;> ring
  · -- the x component dominates
    push_neg at h1 h2 h4
    have hs : Real.sqrt (1 - 2 * (y ^ 2 + z ^ 2) - (1 - 2 * (x ^ 2 + z ^ 2)) -
        (1 - 2 * (x ^ 2 + y ^ 2)) + 1) = 2 * |x| := by
      rw [show 1 - 2 * (y ^ 2 + z ^ 2) - (1 - 2 * (x ^ 2 + z ^ 2)) -
          (1 - 2 * (x ^ 2 + y ^ 2)) + 1 = (2 * x) ^ 2 from by ring,
        Real.sqrt_sq_eq_abs, abs_mul]
      norm_num
    rw [hs]
    have hx2 : 1 ≤ 4 * x ^ 2 := by nlinarith
    have hxx : x ≠ 0 := by
      intro h0
      rw [h0] at hx2
      norm_num at hx2
    rcases hxx.lt_or_lt with hneg | hpos
    · right
      rw [abs_of_neg hneg]
      ext <;> simp only [QQuaternion.neg_wp, QQuaternion.neg_xp, QQuaternion.neg_yp,
        QQuaternion.neg_zp] <;> field_simp <;> ring
    · left
      rw [abs_of_pos hpos]
      ext <;> field_simp <;> ring

/-- C7 (amended): for every quaternion produced by `fromAxisAndAngle` from a
non-null axis (a unit quaternion), `fromRotationMatrix` after
`toRotationMatrix` reproduces the quaternion up to sign. -/
theorem C7_rotation_matrix_roundtrip (v : QVector3D) (a : ℝ) (hv : v.lengthSquared ≠ 0) :
    QQuaternion.fromRotationMatrix
        (QQuaternion.toRotationMatrix (QQuaternion.fromAxisAndAngle v a)) =
      QQuaternion.fromAxisAndAngle v a ∨
    QQuaternion.fromRotationMatrix
        (QQuaternion.toRotationMatrix (QQuaternion.fromAxisAndAngle v a)) =
      -QQuaternion.fromAxisAndAngle v a :=
  QQuaternion.fromRotationMatrix_toRotationMatrix (QQuaternion.fromAxisAndAngle v a)
    (QQuaternion.lengthSquared_fromAxisAndAngle v hv a)

/-- C7 witness: the round trip at the concrete axis `(1, 0, 0)` and angle
`90` degrees. -/
theorem C7_rotation_matrix_roundtrip_witness :
    QQuaternion.fromRotationMatrix
        (QQuaternion.toRotationMatrix (QQuaternion.fromAxisAndAngle ⟨1, 0, 0⟩ 90)) =
      QQuaternion.fromAxisAndAngle ⟨1, 0, 0⟩ 90 ∨
    QQuaternion.fromRotationMatrix
        (QQuaternion.toRotationMatrix (QQuaternion.fromAxisAndAngle ⟨1, 0, 0⟩ 90)) =
      -QQuaternion.fromAxisAndAngle ⟨1, 0, 0⟩ 90 :=
  C7_rotation_matrix_roundtrip ⟨1, 0, 0⟩ 90 (by norm_num [QVector3D.lengthSquared])

/-- C7 counterexample: `fromAxisAndAngle` applied to the null axis and the
angle `180` degrees produces the null quaternion (the half-angle cosine
vanishes and the null short-circuit of `normalized` fires), whose rotation
matrix is the identity matrix; `fromRotationMatrix` then returns the
identity quaternion, which is neither the null quaternion nor its negation,
so the claim fails for this quaternion produced by `fromAxisAndAngle`. -/
theorem C7_rotation_matrix_counterexample :
    QQuaternion.fromAxisAndAngle ⟨0, 0, 0⟩ 180 = ⟨0, 0, 0, 0⟩ ∧
    QQuaternion.fromRotationMatrix
        (QQuaternion.toRotationMatrix (QQuaternion.fromAxisAndAngle ⟨0, 0, 0⟩ 180)) ≠
      QQuaternion.fromAxisAndAngle ⟨0, 0, 0⟩ 180 ∧
    QQuaternion.fromRotationMatrix
        (QQuaternion.toRotationMatrix (QQuaternion.fromAxisAndAngle ⟨0, 0, 0⟩ 180)) ≠
      -QQuaternion.fromAxisAndAngle ⟨0, 0, 0⟩ 180 := by
  have hz : (⟨0, 0, 0⟩ : QVector3D).normalized = ⟨0, 0, 0⟩ := by
    unfold QVector3D.normalized
    rw [if_pos (by norm_num [QVector3D.lengthSquared])]
  have hhalf : degreesToRadians 180 / 2 = Real.pi / 2 := by
    unfold degreesToRadians
    ring
  have hq : QQuaternion.fromAxisAndAngle ⟨0, 0, 0⟩ 180 = ⟨0, 0, 0, 0⟩ := by
    unfold QQuaternion.fromAxisAndAngle
    rw [hz, hhalf, Real.cos_pi_div_two]
    have hsv : QQuaternion.fromScalarAndVector 0
        (Real.sin (Real.pi / 2) • (⟨0, 0, 0⟩ : QVector3D)) = ⟨0, 0, 0, 0⟩ := by
      unfold QQuaternion.fromScalarAndVector
      ext <;> simp
    rw [hsv]
    unfold QQuaternion.normalized
    rw [if_pos (by norm_num [QQuaternion.lengthSquared])]
  have hm : QQuaternion.toRotationMatrix ⟨0, 0, 0, 0⟩ = ⟨1, 0, 0, 0, 1, 0, 0, 0, 1⟩ := by
    unfold QQuaternion.toRotationMatrix
    ext <;> norm_num
  have hfr : QQuaternion.fromRotationMatrix ⟨1, 0, 0, 0, 1, 0, 0, 0, 1⟩ = ⟨1, 0, 0, 0⟩ := by
    unfold QQuaternion.fromRotationMatrix
    rw [if_pos (by norm_num)]
    dsimp only
    rw [show (1 : ℝ) + 1 + 1 + 1 = 2 ^ 2 from by norm_num,
      Real.sqrt_sq (by norm_num : (0 : ℝ) ≤ 2)]
    ext <;> norm_num
  refine ⟨hq, ?_, ?_⟩ <;> rw [hq, hm, hfr] <;> intro hcon <;>
    have hwp := congrArg QQuaternion.wp hcon <;> simp at hwp

/-- Normalizing a vector of unit squared length is the identity. -/
theorem QVector3D.vec_normalized_of_unit (v : QVector3D) (h : v.lengthSquared = 1) :
    v.normalized = v := by
  unfold QVector3D.normalized
  rw [if_neg (by rw [h]; norm_num)]
  unfold QVector3D.length
  rw [h, Real.sqrt_one]
  ext <;> simp

/-- C8: `fromEulerAngles(pitch, yaw, roll)` equals the composition
`qy * (qx * qz)` of the axis-angle quaternions for pitch about X, yaw about
Y and roll about Z, in exactly this grouping and order, exactly (the
tolerance of the floating-point test is vacuous in the exact-real model). -/
theorem C8_fromEulerAngles_composition (pitch yaw roll : ℝ) :
    QQuaternion.fromEulerAngles pitch yaw roll =
      QQuaternion.fromAxisAndAngle ⟨0, 1, 0⟩ yaw *
        (QQuaternion.fromAxisAndAngle ⟨1, 0, 0⟩ pitch *
          QQuaternion.fromAxisAndAngle ⟨0, 0, 1⟩ roll) := by
  have hx : (⟨1, 0, 0⟩ : QVector3D).lengthSquared = 1 := by
    norm_num [QVector3D.lengthSquared]
  have hy : (⟨0, 1, 0⟩ : QVector3D).lengthSquared = 1 := by
    norm_num [QVector3D.lengthSquared]
  have hz : (⟨0, 0, 1⟩ : QVector3D).lengthSquared = 1 := by
    norm_num [QVector3D.lengthSquared]
  rw [QQuaternion.fromAxisAndAngle_eq ⟨0, 1, 0⟩ (by rw [hy]; norm_num) yaw,
    QQuaternion.fromAxisAndAngle_eq ⟨1, 0, 0⟩ (by rw [hx]; norm_num) pitch,
    QQuaternion.fromAxisAndAngle_eq ⟨0, 0, 1⟩ (by rw [hz]; norm_num) roll,
    QVector3D.vec_normalized_of_unit _ hx, QVector3D.vec_normalized_of_unit _ hy,
    QVector3D.vec_normalized_of_unit _ hz]
  unfold QQuaternion.fromEulerAngles
  ext <;>
    simp [QQuaternion.mul_def, QQuaternion.hamiltonProduct, QQuaternion.fromScalarAndVector,
      QQuaternion.vector, QVector3D.dotProduct, QVector3D.crossProduct] <;>
    ring

/-- The two-argument arctangent recovers the angle of a point given in
polar form, for angles in `(-pi, pi]` and a positive radius. -/
theorem atan2_mul_sin_cos (r t : ℝ) (hr : 0 < r) (h1 : -Real.pi < t) (h2 : t ≤ Real.pi) :
    atan2 (r * Real.sin t) (r * Real.cos t) = t := by
  have hpi := Real.pi_pos
  by_cases hq1 : t < -(Real.pi / 2)
  · have hcos : Real.cos t < 0 := by
      have hc := Real.cos_neg_of_pi_div_two_lt_of_lt (show Real.pi / 2 < -t by linarith)
        (show -t < Real.pi + Real.pi / 2 by linarith)
      rwa [Real.cos_neg] at hc
    have hsin : Real.sin t < 0 := Real.sin_neg_of_neg_of_neg_pi_lt (by linarith) h1
    unfold atan2
    rw [if_neg (by nlinarith), if_pos (mul_neg_of_pos_of_neg hr hcos), if_neg (by nlinarith)]
    have htan : Real.tan (t + Real.pi) = Real.tan t := Real.tan_periodic t
    have harg : r * Real.sin t / (r * Real.cos t) = Real.tan (t + Real.pi) := by
      rw [htan, Real.tan_eq_sin_div_cos, mul_div_mul_left _ _ (ne_of_gt hr)]
    rw [harg, Real.arctan_tan (by linarith) (by linarith)]
    ring
  by_cases hq2 : t = -(Real.pi / 2)
  · subst hq2
    have hc0 : Real.cos (-(Real.pi / 2)) = 0 := by rw [Real.cos_neg, Real.cos_pi_div_two]
    have hs0 : Real.sin (-(Real.pi / 2)) = -1 := by rw [Real.sin_neg, Real.sin_pi_div_two]
    unfold atan2
    rw [hc0, hs0, mul_zero]
    rw [if_neg (lt_irrefl 0), if_neg (lt_irrefl 0), if_neg (by nlinarith), if_pos (by nlinarith)]
  by_cases hq3 : t < Real.pi / 2
  · have ht1 : -(Real.pi / 2) < t := lt_of_le_of_ne (not_lt.mp hq1) (Ne.symm hq2)
    have hcos : 0 < Real.cos t := Real.cos_pos_of_mem_Ioo ⟨ht1, hq3⟩
    unfold atan2
    rw [if_pos (mul_pos hr hcos), mul_div_mul_left _ _ (ne_of_gt hr),
      ← Real.tan_eq_sin_div_cos, Real.arctan_tan ht1 hq3]
  by_cases hq4 : t = Real.pi / 2
  · subst hq4
    unfold atan2
    rw [Real.cos_pi_div_two, Real.sin_pi_div_two, mul_zero, mul_one]
    rw [if_neg (lt_irrefl 0), if_neg (lt_irrefl 0), if_pos hr]
  · have ht1 : Real.pi / 2 < t := lt_of_le_of_ne (not_lt.mp hq3) (Ne.symm hq4)
    have hcos : Real.cos t < 0 :=
      Real.cos_neg_of_pi_div_two_lt_of_lt ht1 (by linarith)
    have hsin : 0 ≤ Real.sin t := Real.sin_nonneg_of_nonneg_of_le_pi (by linarith) h2
    unfold atan2
    rw [if_neg (by nlinarith), if_pos (mul_neg_of_pos_of_neg hr hcos),
      if_pos (mul_nonneg hr.le hsin)]
    have htan : Real.tan (t - Real.pi) = Real.tan t := by
      have hp := Real.tan_periodic (t - Real.pi)
      rw [show t - Real.pi + Real.pi = t from by ring] at hp
      exact hp.symm
    have harg : r * Real.sin t / (r * Real.cos t) = Real.tan (t - Real.pi) := by
      rw [htan, Real.tan_eq_sin_div_cos, mul_div_mul_left _ _ (ne_of_gt hr)]
    rw [harg, Real.arctan_tan (by linarith) (by linarith)]
    ring

/-- Special case of the polar-form inverse at radius one. -/
theorem atan2_sin_cos (t : ℝ) (h1 : -Real.pi < t) (h2 : t ≤ Real.pi) :
    atan2 (Real.sin t) (Real.cos t) = t := by
  have h := atan2_mul_sin_cos 1 t one_pos h1 h2
  rwa [one_mul, one_mul] at h

/-- Converting degrees to radians and back is the identity. -/
theorem radiansToDegrees_degreesToRadians (x : ℝ) :
    radiansToDegrees (degreesToRadians x) = x := by
  unfold radiansToDegrees degreesToRadians
  field_simp

/-- A quaternion built by `fromEulerAngles` is a unit quaternion. -/
theorem eulerQ_lengthSquared (p y r : ℝ) :
    (QQuaternion.fromEulerAngles p y r).lengthSquared = 1 := by
  unfold QQuaternion.fromEulerAngles QQuaternion.lengthSquared
  dsimp only
  have h1 := Real.sin_sq_add_cos_sq (degreesToRadians y / 2)
  have h2 := Real.sin_sq_add_cos_sq (degreesToRadians r / 2)
  have h3 := Real.sin_sq_add_cos_sq (degreesToRadians p / 2)
  linear_combination ((Real.sin (degreesToRadians r / 2) ^ 2 +
      Real.cos (degreesToRadians r / 2) ^ 2) * (Real.sin (degreesToRadians p / 2) ^ 2 +
      Real.cos (degreesToRadians p / 2) ^ 2)) * h1 +
    (Real.sin (degreesToRadians p / 2) ^ 2 + Real.cos (degreesToRadians p / 2) ^ 2) * h2 + h3

/-- The arcsine argument of the Euler decomposition evaluates to the sine of
the pitch on quaternions built by `fromEulerAngles`. -/
theorem eulerQ_sinp (p y r : ℝ) :
    -2 * ((QQuaternion.fromEulerAngles p y r).yp * (QQuaternion.fromEulerAngles p y r).zp -
        (QQuaternion.fromEulerAngles p y r).xp * (QQuaternion.fromEulerAngles p y r).wp) =
      Real.sin (degreesToRadians p) := by
  unfold QQuaternion.fromEulerAngles
  dsimp only
  have hP : Real.sin (degreesToRadians p) =
      2 * Real.sin (degreesToRadians p / 2) * Real.cos (degreesToRadians p / 2) := by
    rw [← Real.sin_two_mul]
    congr 1
    ring
  rw [hP]
  have h1 := Real.sin_sq_add_cos_sq (degreesToRadians y / 2)
  have h2 := Real.sin_sq_add_cos_sq (degreesToRadians r / 2)
  linear_combination (2 * Real.sin (degreesToRadians p / 2) * Real.cos (degreesToRadians p / 2) *
      (Real.sin (degreesToRadians r / 2) ^ 2 + Real.cos (degreesToRadians r / 2) ^ 2)) * h1 +
    (2 * Real.sin (degreesToRadians p / 2) * Real.cos (degreesToRadians p / 2)) * h2

/-- The yaw arctangent numerator on quaternions built by `fromEulerAngles`. -/
theorem eulerQ_yaw_num (p y r : ℝ) :
    2 * ((QQuaternion.fromEulerAngles p y r).xp * (QQuaternion.fromEulerAngles p y r).zp +
        (QQuaternion.fromEulerAngles p y r).yp * (QQuaternion.fromEulerAngles p y r).wp) =
      Real.cos (degreesToRadians p) * Real.sin (degreesToRadians y) := by
  unfold QQuaternion.fromEulerAngles
  dsimp only
  have hP : Real.cos (degreesToRadians p) =
      Real.cos (degreesToRadians p / 2) ^ 2 - Real.sin (degreesToRadians p / 2) ^ 2 := by
    rw [← Real.cos_two_mul']
    congr 1
    ring
  have hY : Real.sin (degreesToRadians y) =
      2 * Real.sin (degreesToRadians y / 2) * Real.cos (degreesToRadians y / 2) := by
    rw [← Real.sin_two_mul]
    congr 1
    ring
  rw [hP, hY]
  have h2 := Real.sin_sq_add_cos_sq (degreesToRadians r / 2)
  linear_combination (2 * Real.sin (degreesToRadians y / 2) * Real.cos (degreesToRadians y / 2) *
    (Real.cos (degreesToRadians p / 2) ^ 2 - Real.sin (degreesToRadians p / 2) ^ 2)) * h2

/-- The yaw arctangent denominator on quaternions built by
`fromEulerAngles`. -/
theorem eulerQ_yaw_den (p y r : ℝ) :
    1 - 2 * ((QQuaternion.fromEulerAngles p y r).xp ^ 2 +
        (QQuaternion.fromEulerAngles p y r).yp ^ 2) =
      Real.cos (degreesToRadians p) * Real.cos (degreesToRadians y) := by
  unfold QQuaternion.fromEulerAngles
  dsimp only
  have hP : Real.cos (degreesToRadians p) =
      Real.cos (degreesToRadians p / 2) ^ 2 - Real.sin (degreesToRadians p / 2) ^ 2 := by
    rw [← Real.cos_two_mul']
    congr 1
    ring
  have hY : Real.cos (degreesToRadians y) =
      Real.cos (degreesToRadians y / 2) ^ 2 - Real.sin (degreesToRadians y / 2) ^ 2 := by
    rw [← Real.cos_two_mul']
    congr 1
    ring
  rw [hP, hY]
  have h1 := Real.sin_sq_add_cos_sq (degreesToRadians y / 2)
  have h2 := Real.sin_sq_add_cos_sq (degreesToRadians r / 2)
  have h3 := Real.sin_sq_add_cos_sq (degreesToRadians p / 2)
  linear_combination
    (-((Real.sin (degreesToRadians r / 2) ^ 2 + Real.cos (degreesToRadians r / 2) ^ 2) *
      (Real.sin (degreesToRadians p / 2) ^ 2 + Real.cos (degreesToRadians p / 2) ^ 2))) * h1 +
    ((Real.cos (degreesToRadians y / 2) ^ 2 - Real.sin (degreesToRadians y / 2) ^ 2) *
        (Real.cos (degreesToRadians p / 2) ^ 2 - Real.sin (degreesToRadians p / 2) ^ 2) -
      (Real.sin (degreesToRadians p / 2) ^ 2 + Real.cos (degreesToRadians p / 2) ^ 2)) * h2 +
    (-1) * h3

/-- The roll arctangent numerator on quaternions built by
`fromEulerAngles`. -/
theorem eulerQ_roll_num (p y r : ℝ) :
    2 * ((QQuaternion.fromEulerAngles p y r).xp * (QQuaternion.fromEulerAngles p y r).yp +
        (QQuaternion.fromEulerAngles p y r).zp * (QQuaternion.fromEulerAngles p y r).wp) =
      Real.cos (degreesToRadians p) * Real.sin (degreesToRadians r) := by
  unfold QQuaternion.fromEulerAngles
  dsimp only
  have hP : Real.cos (degreesToRadians p) =
      Real.cos (degreesToRadians p / 2) ^ 2 - Real.sin (degreesToRadians p / 2) ^ 2 := by
    rw [← Real.cos_two_mul']
    congr 1
    ring
  have hR : Real.sin (degreesToRadians r) =
      2 * Real.sin (degreesToRadians r / 2) * Real.cos (degreesToRadians r / 2) := by
    rw [← Real.sin_two_mul]
    congr 1
    ring
  rw [hP, hR]
  have h1 := Real.sin_sq_add_cos_sq (degreesToRadians y / 2)
  linear_combination (2 * Real.sin (degreesToRadians r / 2) * Real.cos (degreesToRadians r / 2) *
    (Real.cos (degreesToRadians p / 2) ^ 2 - Real.sin (degreesToRadians p / 2) ^ 2)) * h1

/-- The roll arctangent denominator on quaternions built by
`fromEulerAngles`. -/
theorem eulerQ_roll_den (p y r : ℝ) :
    1 - 2 * ((QQuaternion.fromEulerAngles p y r).xp ^ 2 +
        (QQuaternion.fromEulerAngles p y r).zp ^ 2) =
      Real.cos (degreesToRadians p) * Real.cos (degreesToRadians r) := by
  unfold QQuaternion.fromEulerAngles
  dsimp only
  have hP : Real.cos (degreesToRadians p) =
      Real.cos (degreesToRadians p / 2) ^ 2 - Real.sin (degreesToRadians p / 2) ^ 2 := by
    rw [← Real.cos_two_mul']
    congr 1
    ring
  have hR : Real.cos (degreesToRadians r) =
      Real.cos (degreesToRadians r / 2) ^ 2 - Real.sin (degreesToRadians r / 2) ^ 2 := by
    rw [← Real.cos_two_mul']
    congr 1
    ring
  rw [hP, hR]
  have h1 := Real.sin_sq_add_cos_sq (degreesToRadians y / 2)
  have h2 := Real.sin_sq_add_cos_sq (degreesToRadians r / 2)
  have h3 := Real.sin_sq_add_cos_sq (degreesToRadians p / 2)
  linear_combination
    (-((Real.sin (degreesToRadians r / 2) ^ 2 + Real.cos (degreesToRadians r / 2) ^ 2) *
        (Real.sin (degreesToRadians p / 2) ^ 2 + Real.cos (degreesToRadians p / 2) ^ 2)) +
      (Real.cos (degreesToRadians r / 2) ^ 2 - Real.sin (degreesToRadians r / 2) ^ 2) *
        (Real.cos (degreesToRadians p / 2) ^ 2 - Real.sin (degreesToRadians p / 2) ^ 2)) * h1 +
    (-(Real.sin (degreesToRadians p / 2) ^ 2 + Real.cos (degreesToRadians p / 2) ^ 2)) * h2 +
    (-1) * h3

/-- Away from gimbal lock, the Euler decomposition inverts
`fromEulerAngles` exactly, for pitch strictly inside `(-90, 90)` degrees
and yaw and roll in `(-180, 180]` degrees. -/
theorem euler_roundtrip_normal (p y r : ℝ) (hp1 : -90 < p) (hp2 : p < 90)
    (hlock : |Real.sin (degreesToRadians p)| < 1 - gimbalLockTolerance)
    (hy1 : -180 < y) (hy2 : y ≤ 180) (hr1 : -180 < r) (hr2 : r ≤ 180) :
    QQuaternion.toEulerAngles (QQuaternion.fromEulerAngles p y r) = (p, y, r) := by
  have hpi := Real.pi_pos
  have hP1 : -(Real.pi / 2) ≤ degreesToRadians p := by
    unfold degreesToRadians
    nlinarith
  have hP2 : degreesToRadians p ≤ Real.pi / 2 := by
    unfold degreesToRadians
    nlinarith
  have hPo1 : -(Real.pi / 2) < degreesToRadians p := by
    unfold degreesToRadians
    nlinarith
  have hPo2 : degreesToRadians p < Real.pi / 2 := by
    unfold degreesToRadians
    nlinarith
  have hcosP : 0 < Real.cos (degreesToRadians p) := Real.cos_pos_of_mem_Ioo ⟨hPo1, hPo2⟩
  have hY1 : -Real.pi < degreesToRadians y := by
    unfold degreesToRadians
    nlinarith
  have hY2 : degreesToRadians y ≤ Real.pi := by
    unfold degreesToRadians
    nlinarith
  have hR1 : -Real.pi < degreesToRadians r := by
    unfold degreesToRadians
    nlinarith
  have hR2 : degreesToRadians r ≤ Real.pi := by
    unfold degreesToRadians
    nlinarith
  simp only [QQuaternion.toEulerAngles, eulerQ_lengthSquared, ite_self, div_one]
  rw [eulerQ_sinp, if_pos hlock, eulerQ_yaw_num, eulerQ_yaw_den, eulerQ_roll_num,
    eulerQ_roll_den, atan2_mul_sin_cos _ _ hcosP hY1 hY2, atan2_mul_sin_cos _ _ hcosP hR1 hR2,
    Real.arcsin_sin hP1 hP2, radiansToDegrees_degreesToRadians,
    radiansToDegrees_degreesToRadians, radiansToDegrees_degreesToRadians]

/-- Whenever the arcsine argument is within the gimbal-lock tolerance of
`1` in magnitude (pitch within a fraction of a degree of plus or minus 90),
the decomposition forces roll to zero, whatever the input roll was. -/
theorem euler_lock_roll_zero (p y r : ℝ)
    (hlock : 1 - gimbalLockTolerance ≤ |Real.sin (degreesToRadians p)|) :
    (QQuaternion.toEulerAngles (QQuaternion.fromEulerAngles p y r)).2.2 = 0 := by
  simp only [QQuaternion.toEulerAngles, eulerQ_lengthSquared, ite_self, div_one]
  rw [eulerQ_sinp, if_neg (not_lt.mpr hlock)]

/-- Euler decomposition of a gimbal-locked quaternion at pitch +90 degrees,
stated over the half-yaw sine and cosine. -/
theorem toEulerAngles_lock_pos (s1 c1 : ℝ) (h1 : s1 ^ 2 + c1 ^ 2 = 1) :
    QQuaternion.toEulerAngles ⟨c1 * (Real.sqrt 2 / 2), c1 * (Real.sqrt 2 / 2),
        s1 * (Real.sqrt 2 / 2), -(s1 * (Real.sqrt 2 / 2))⟩ =
      (90, radiansToDegrees (atan2 (2 * (s1 * c1)) (1 - 2 * s1 ^ 2)), 0) := by
  have hs2 : Real.sqrt 2 ^ 2 = 2 := Real.sq_sqrt (by norm_num)
  have hlen : (⟨c1 * (Real.sqrt 2 / 2), c1 * (Real.sqrt 2 / 2), s1 * (Real.sqrt 2 / 2),
      -(s1 * (Real.sqrt 2 / 2))⟩ : QQuaternion).lengthSquared = 1 := by
    unfold QQuaternion.lengthSquared
    dsimp only
    linear_combination (Real.sqrt 2 ^ 2 / 2) * h1 + (1 / 2) * hs2
  simp only [QQuaternion.toEulerAngles, hlen, ite_self, div_one]
  have hsinp : -2 * ((⟨c1 * (Real.sqrt 2 / 2), c1 * (Real.sqrt 2 / 2), s1 * (Real.sqrt 2 / 2),
        -(s1 * (Real.sqrt 2 / 2))⟩ : QQuaternion).yp *
      (⟨c1 * (Real.sqrt 2 / 2), c1 * (Real.sqrt 2 / 2), s1 * (Real.sqrt 2 / 2),
        -(s1 * (Real.sqrt 2 / 2))⟩ : QQuaternion).zp -
      (⟨c1 * (Real.sqrt 2 / 2), c1 * (Real.sqrt 2 / 2), s1 * (Real.sqrt 2 / 2),
        -(s1 * (Real.sqrt 2 / 2))⟩ : QQuaternion).xp *
      (⟨c1 * (Real.sqrt 2 / 2), c1 * (Real.sqrt 2 / 2), s1 * (Real.sqrt 2 / 2),
        -(s1 * (Real.sqrt 2 / 2))⟩ : QQuaternion).wp) = 1 := by
    dsimp only
    linear_combination (Real.sqrt 2 ^ 2 / 2) * h1 + (1 / 2) * hs2
  rw [hsinp]
  have h01 : (0 : ℝ) ≤ 1 := by norm_num
  rw [if_neg (by rw [abs_one]; unfold gimbalLockTolerance; norm_num), if_pos h01, if_pos h01]
  have hnum : 2 * ((⟨c1 * (Real.sqrt 2 / 2), c1 * (Real.sqrt 2 / 2), s1 * (Real.sqrt 2 / 2),
        -(s1 * (Real.sqrt 2 / 2))⟩ : QQuaternion).xp *
      (⟨c1 * (Real.sqrt 2 / 2), c1 * (Real.sqrt 2 / 2), s1 * (Real.sqrt 2 / 2),
        -(s1 * (Real.sqrt 2 / 2))⟩ : QQuaternion).yp -
      (⟨c1 * (Real.sqrt 2 / 2), c1 * (Real.sqrt 2 / 2), s1 * (Real.sqrt 2 / 2),
        -(s1 * (Real.sqrt 2 / 2))⟩ : QQuaternion).zp *
      (⟨c1 * (Real.sqrt 2 / 2), c1 * (Real.sqrt 2 / 2), s1 * (Real.sqrt 2 / 2),
        -(s1 * (Real.sqrt 2 / 2))⟩ : QQuaternion).wp) = 2 * (s1 * c1) := by
    dsimp only
    linear_combination (s1 * c1) * hs2
  have hden : 1 - 2 * ((⟨c1 * (Real.sqrt 2 / 2), c1 * (Real.sqrt 2 / 2),
        s1 * (Real.sqrt 2 / 2), -(s1 * (Real.sqrt 2 / 2))⟩ : QQuaternion).yp ^ 2 +
      (⟨c1 * (Real.sqrt 2 / 2), c1 * (Real.sqrt 2 / 2), s1 * (Real.sqrt 2 / 2),
        -(s1 * (Real.sqrt 2 / 2))⟩ : QQuaternion).zp ^ 2) = 1 - 2 * s1 ^ 2 := by
    dsimp only
    linear_combination (-(s1 ^ 2)) * hs2
  rw [hnum, hden, one_mul]

/-- Euler decomposition of a gimbal-locked quaternion at pitch -90 degrees,
stated over the half-yaw sine and cosine. -/
theorem toEulerAngles_lock_neg (s1 c1 : ℝ) (h1 : s1 ^ 2 + c1 ^ 2 = 1) :
    QQuaternion.toEulerAngles ⟨c1 * (Real.sqrt 2 / 2), -(c1 * (Real.sqrt 2 / 2)),
        s1 * (Real.sqrt 2 / 2), s1 * (Real.sqrt 2 / 2)⟩ =
      (-90, -radiansToDegrees (atan2 (-(2 * (s1 * c1))) (1 - 2 * s1 ^ 2)), 0) := by
  have hs2 : Real.sqrt 2 ^ 2 = 2 := Real.sq_sqrt (by norm_num)
  have hlen : (⟨c1 * (Real.sqrt 2 / 2), -(c1 * (Real.sqrt 2 / 2)), s1 * (Real.sqrt 2 / 2),
      s1 * (Real.sqrt 2 / 2)⟩ : QQuaternion).lengthSquared = 1 := by
    unfold QQuaternion.lengthSquared
    dsimp only
    linear_combination (Real.sqrt 2 ^ 2 / 2) * h1 + (1 / 2) * hs2
  simp only [QQuaternion.toEulerAngles, hlen, ite_self, div_one]
  have hsinp : -2 * ((⟨c1 * (Real.sqrt 2 / 2), -(c1 * (Real.sqrt 2 / 2)),
        s1 * (Real.sqrt 2 / 2), s1 * (Real.sqrt 2 / 2)⟩ : QQuaternion).yp *
      (⟨c1 * (Real.sqrt 2 / 2), -(c1 * (Real.sqrt 2 / 2)), s1 * (Real.sqrt 2 / 2),
        s1 * (Real.sqrt 2 / 2)⟩ : QQuaternion).zp -
      (⟨c1 * (Real.sqrt 2 / 2), -(c1 * (Real.sqrt 2 / 2)), s1 * (Real.sqrt 2 / 2),
        s1 * (Real.sqrt 2 / 2)⟩ : QQuaternion).xp *
      (⟨c1 * (Real.sqrt 2 / 2), -(c1 * (Real.sqrt 2 / 2)), s1 * (Real.sqrt 2 / 2),
        s1 * (Real.sqrt 2 / 2)⟩ : QQuaternion).wp) = -1 := by
    dsimp only
    linear_combination (-(Real.sqrt 2 ^ 2 / 2)) * h1 + (-(1 / 2)) * hs2
  rw [hsinp]
  have h01 : ¬(0 : ℝ) ≤ -1 := by norm_num
  rw [if_neg (by rw [abs_neg, abs_one]; unfold gimbalLockTolerance; norm_num), if_neg h01,
    if_neg h01]
  have hnum : 2 * ((⟨c1 * (Real.sqrt 2 / 2), -(c1 * (Real.sqrt 2 / 2)),
        s1 * (Real.sqrt 2 / 2), s1 * (Real.sqrt 2 / 2)⟩ : QQuaternion).xp *
      (⟨c1 * (Real.sqrt 2 / 2), -(c1 * (Real.sqrt 2 / 2)), s1 * (Real.sqrt 2 / 2),
        s1 * (Real.sqrt 2 / 2)⟩ : QQuaternion).yp -
      (⟨c1 * (Real.sqrt 2 / 2), -(c1 * (Real.sqrt 2 / 2)), s1 * (Real.sqrt 2 / 2),
        s1 * (Real.sqrt 2 / 2)⟩ : QQuaternion).zp *
      (⟨c1 * (Real.sqrt 2 / 2), -(c1 * (Real.sqrt 2 / 2)), s1 * (Real.sqrt 2 / 2),
        s1 * (Real.sqrt 2 / 2)⟩ : QQuaternion).wp) = -(2 * (s1 * c1)) := by
    dsimp only
    linear_combination (-(s1 * c1)) * hs2
  have hden : 1 - 2 * ((⟨c1 * (Real.sqrt 2 / 2), -(c1 * (Real.sqrt 2 / 2)),
        s1 * (Real.sqrt 2 / 2), s1 * (Real.sqrt 2 / 2)⟩ : QQuaternion).yp ^ 2 +
      (⟨c1 * (Real.sqrt 2 / 2), -(c1 * (Real.sqrt 2 / 2)), s1 * (Real.sqrt 2 / 2),
        s1 * (Real.sqrt 2 / 2)⟩ : QQuaternion).zp ^ 2) = 1 - 2 * s1 ^ 2 := by
    dsimp only
    linear_combination (-(s1 ^ 2)) * hs2
  rw [hnum, hden, neg_one_mul]

/-- At pitch exactly +90 degrees with zero roll, the Euler decomposition
recovers pitch and yaw and reports zero roll. -/
theorem euler_lock_recovery_pos (y : ℝ) (hy1 : -180 < y) (hy2 : y < 180) :
    QQuaternion.toEulerAngles (QQuaternion.fromEulerAngles 90 y 0) = (90, y, 0) := by
  have hpi := Real.pi_pos
  have hq : QQuaternion.fromEulerAngles 90 y 0 =
      ⟨Real.cos (degreesToRadians y / 2) * (Real.sqrt 2 / 2),
        Real.cos (degreesToRadians y / 2) * (Real.sqrt 2 / 2),
        Real.sin (degreesToRadians y / 2) * (Real.sqrt 2 / 2),
        -(Real.sin (degreesToRadians y / 2) * (Real.sqrt 2 / 2))⟩ := by
    unfold QQuaternion.fromEulerAngles
    dsimp only
    rw [show degreesToRadians 90 / 2 = Real.pi / 4 from by unfold degreesToRadians; ring,
      show degreesToRadians (0 : ℝ) / 2 = 0 from by unfold degreesToRadians; ring,
      Real.sin_zero, Real.cos_zero, Real.sin_pi_div_four, Real.cos_pi_div_four]
    ext <;> dsimp only <;> ring
  rw [hq, toEulerAngles_lock_pos (Real.sin (degreesToRadians y / 2))
    (Real.cos (degreesToRadians y / 2)) (Real.sin_sq_add_cos_sq _)]
  have hsin : 2 * (Real.sin (degreesToRadians y / 2) * Real.cos (degreesToRadians y / 2)) =
      Real.sin (degreesToRadians y) := by
    have h := Real.sin_two_mul (degreesToRadians y / 2)
    rw [show 2 * (degreesToRadians y / 2) = degreesToRadians y from by ring] at h
    linear_combination (-1) * h
  have hcos : 1 - 2 * Real.sin (degreesToRadians y / 2) ^ 2 = Real.cos (degreesToRadians y) := by
    have h := Real.cos_two_mul' (degreesToRadians y / 2)
    rw [show 2 * (degreesToRadians y / 2) = degreesToRadians y from by ring] at h
    rw [h]
    linear_combination (-1) * Real.sin_sq_add_cos_sq (degreesToRadians y / 2)
  have hY1 : -Real.pi < degreesToRadians y := by
    unfold degreesToRadians
    nlinarith
  have hY2 : degreesToRadians y ≤ Real.pi := by
    unfold degreesToRadians
    nlinarith
  rw [hsin, hcos, atan2_sin_cos (degreesToRadians y) hY1 hY2,
    radiansToDegrees_degreesToRadians]

/-- At pitch exactly -90 degrees with zero roll, the Euler decomposition
recovers pitch and yaw and reports zero roll. -/
theorem euler_lock_recovery_neg (y : ℝ) (hy1 : -180 < y) (hy2 : y < 180) :
    QQuaternion.toEulerAngles (QQuaternion.fromEulerAngles (-90) y 0) = (-90, y, 0) := by
  have hpi := Real.pi_pos
  have hq : QQuaternion.fromEulerAngles (-90) y 0 =
      ⟨Real.cos (degreesToRadians y / 2) * (Real.sqrt 2 / 2),
        -(Real.cos (degreesToRadians y / 2) * (Real.sqrt 2 / 2)),
        Real.sin (degreesToRadians y / 2) * (Real.sqrt 2 / 2),
        Real.sin (degreesToRadians y / 2) * (Real.sqrt 2 / 2)⟩ := by
    unfold QQuaternion.fromEulerAngles
    dsimp only
    rw [show degreesToRadians (-90) / 2 = -(Real.pi / 4) from by unfold degreesToRadians; ring,
      show degreesToRadians (0 : ℝ) / 2 = 0 from by unfold degreesToRadians; ring,
      Real.sin_zero, Real.cos_zero, Real.sin_neg, Real.cos_neg, Real.sin_pi_div_four,
      Real.cos_pi_div_four]
    ext <;> dsimp only <;> ring
  rw [hq, toEulerAngles_lock_neg (Real.sin (degreesToRadians y / 2))
    (Real.cos (degreesToRadians y / 2)) (Real.sin_sq_add_cos_sq _)]
  have hsin : -(2 * (Real.sin (degreesToRadians y / 2) * Real.cos (degreesToRadians y / 2))) =
      Real.sin (-degreesToRadians y) := by
    rw [Real.sin_neg]
    have h := Real.sin_two_mul (degreesToRadians y / 2)
    rw [show 2 * (degreesToRadians y / 2) = degreesToRadians y from by ring] at h
    linear_combination h
  have hcos : 1 - 2 * Real.sin (degreesToRadians y / 2) ^ 2 = Real.cos (-degreesToRadians y) := by
    rw [Real.cos_neg]
    have h := Real.cos_two_mul' (degreesToRadians y / 2)
    rw [show 2 * (degreesToRadians y / 2) = degreesToRadians y from by ring] at h
    rw [h]
    linear_combination (-1) * Real.sin_sq_add_cos_sq (degreesToRadians y / 2)
  have hY1 : -Real.pi < -degreesToRadians y := by
    unfold degreesToRadians
    nlinarith
  have hY2 : -degreesToRadians y ≤ Real.pi := by
    unfold degreesToRadians
    nlinarith
  rw [hsin, hcos, atan2_sin_cos (-degreesToRadians y) hY1 hY2]
  have hfin : -radiansToDegrees (-degreesToRadians y) = y := by
    have h := radiansToDegrees_degreesToRadians y
    unfold radiansToDegrees at h ⊢
    linarith [h]
  rw [hfin]

/-- C9: away from gimbal lock (pitch strictly inside `(-90, 90)` degrees and
the arcsine argument below the detection threshold), `toEulerAngles` applied
to `fromEulerAngles` recovers the `(pitch, yaw, roll)` triple exactly; when
the pitch is at or within the detection tolerance of plus or minus 90
degrees (the threshold comparison captures inputs fractions of a degree
away from the lock), the decomposition deterministically reports zero roll
whatever the input roll was; and at exactly plus or minus 90 degrees of
pitch the rotation is expressed purely as pitch plus yaw. -/
theorem C9_euler_roundtrip_gimbal :
    (∀ p y r : ℝ, -90 < p → p < 90 →
      |Real.sin (degreesToRadians p)| < 1 - gimbalLockTolerance →
      -180 < y → y ≤ 180 → -180 < r → r ≤ 180 →
      QQuaternion.toEulerAngles (QQuaternion.fromEulerAngles p y r) = (p, y, r)) ∧
    (∀ p y r : ℝ, 1 - gimbalLockTolerance ≤ |Real.sin (degreesToRadians p)| →
      (QQuaternion.toEulerAngles (QQuaternion.fromEulerAngles p y r)).2.2 = 0) ∧
    (∀ y : ℝ, -180 < y → y < 180 →
      QQuaternion.toEulerAngles (QQuaternion.fromEulerAngles 90 y 0) = (90, y, 0) ∧
      QQuaternion.toEulerAngles (QQuaternion.fromEulerAngles (-90) y 0) = (-90, y, 0)) ∧
    (∀ q : QQuaternion, q.getEulerAngles = q.toEulerAngles) :=
  ⟨euler_roundtrip_normal, euler_lock_roll_zero,
    fun y h1 h2 => ⟨euler_lock_recovery_pos y h1 h2, euler_lock_recovery_neg y h1 h2⟩,
    fun _ => rfl⟩

/-- C9 witness: the triple `(30, 40, 50)` round-trips exactly; at pitch 90
with roll 50 the decomposition reports zero roll; and `(90, 40, 0)` is
recovered exactly at the lock. -/
theorem C9_euler_roundtrip_gimbal_witness :
    QQuaternion.toEulerAngles (QQuaternion.fromEulerAngles 30 40 50) = (30, 40, 50) ∧
    (QQuaternion.toEulerAngles (QQuaternion.fromEulerAngles 90 40 50)).2.2 = 0 ∧
    QQuaternion.toEulerAngles (QQuaternion.fromEulerAngles 90 40 0) = (90, 40, 0) := by
  refine ⟨C9_euler_roundtrip_gimbal.1 30 40 50 (by norm_num) (by norm_num) ?_ (by norm_num)
      (by norm_num) (by norm_num) (by norm_num),
    C9_euler_roundtrip_gimbal.2.1 90 40 50 ?_,
    (C9_euler_roundtrip_gimbal.2.2.1 40 (by norm_num) (by norm_num)).1⟩
  · rw [show degreesToRadians 30 = Real.pi / 6 from by unfold degreesToRadians; ring,
      Real.sin_pi_div_six, abs_of_pos (show (0 : ℝ) < 1 / 2 by norm_num)]
    unfold gimbalLockTolerance
    norm_num
  · rw [show degreesToRadians 90 = Real.pi / 2 from by unfold degreesToRadians; ring,
      Real.sin_pi_div_two, abs_one]
    unfold gimbalLockTolerance
    norm_num
